import Mathlib

/-!
Shallow embedding of the trecho RISC-V soft HART (src/soft.rs) and the
parts of its environment the verified claims need.  Pure definitions mirror
the Rust source arm by arm; the memory bus and the exception enumeration
live in repository modules that are not part of src/, so those two are
modelled from the specification and say so in their doc comments.
-/

/-- The modulus 2^64 of all u64 arithmetic in the HART. -/
def WORD : Nat := 2 ^ 64

/-- The cast `(imm as i64) as u64` of a (sign-extended) immediate:
reduce the integer into the range [0, 2^64). -/
def toU64 (i : Int) : Nat := (i % (2 ^ 64 : Int)).toNat

/-- Sign extension of a 32-bit value to 64 bits, as in `((v as i32) as i64) as u64`. -/
def sext32 (v : Nat) : Nat :=
  if v % 2 ^ 32 < 2 ^ 31 then v % 2 ^ 32 else v % 2 ^ 32 + (2 ^ 64 - 2 ^ 32)

/-- Modelled from the spec: the exception taxonomy of §7.  The `Exception`
enum itself is defined in the repository's exceptions module, which is not
under src/; the variants are the spec's error kinds. -/
inductive Exc where
  | IllegalInstruction
  | InstructionAddressMisaligned
  | LoadAccessFault
  | StoreAccessFault
  | LoadAddressMisaligned
  | StoreAddressMisaligned
  | EnvironmentCall
  | Breakpoint
  | ProgramTooLarge
  | StackSizeExceeded
  deriving DecidableEq, Repr

/-- Read `n` bytes little-endian starting at `addr` from a byte map:
the byte at `addr` is least significant. -/
def readLE (m : Nat → Nat) : Nat → Nat → Nat
  | _, 0 => 0
  | addr, n + 1 => m addr % 256 + 256 * readLE m (addr + 1) n

/-- Write the low `n` bytes of `v` little-endian starting at `addr`. -/
def writeLE : (Nat → Nat) → Nat → Nat → Nat → (Nat → Nat)
  | m, _, _, 0 => m
  | m, addr, v, n + 1 =>
      writeLE (fun a => if a = addr then v % 256 else m a) (addr + 1) (v / 256) n

/-- Modelled from the spec: the memory bus (§4.3), a contiguous
byte-addressed little-endian array of `size` bytes.  The `Dram` type is in
the repository's memory module, which is not under src/. -/
structure Dram where
  mem : Nat → Nat
  size : Nat

/-- Modelled from the spec: `read(addr, bits) → value | Fault`; little-endian,
out of range gives a fault (`none`). -/
def Dram.read (d : Dram) (addr bits : Nat) : Option Nat :=
  if addr + bits / 8 ≤ d.size then some (readLE d.mem addr (bits / 8)) else none

/-- Modelled from the spec: `write(addr, value, bits) → () | Fault`; stores
the low `bits` of `value` little-endian, out of range gives a fault. -/
def Dram.write (d : Dram) (addr v bits : Nat) : Option Dram :=
  if addr + bits / 8 ≤ d.size then
    some { d with mem := writeLE d.mem addr v (bits / 8) }
  else none

/-- The architectural state of `SoftThread<u64, f64, Dram>` (src/soft.rs),
restricted to the fields the claims touch (the floating-point register
file is not involved in any claim). -/
structure SoftThread where
  registers : Nat → Nat
  pc : Nat
  program : List Nat
  csr : Nat → Nat
  bus : Dram
  res : List Nat

/-- Functional update of the integer register file, as `self.registers[rd] = v`. -/
def regSet (regs : Nat → Nat) (i v : Nat) : Nat → Nat :=
  fun j => if j = i then v else regs j

/-- The step `SoftThread::advance`: `self.pc += INST_LEN` with `INST_LEN = 4`. -/
def advance (s : SoftThread) : SoftThread :=
  { s with pc := (s.pc + 4) % WORD }

/-- The conversion `u32::from_le_bytes`: byte 0 of the array is least
significant. -/
def u32FromLeBytes (b0 b1 b2 b3 : Nat) : Nat :=
  b0 % 256 + b1 % 256 * 2 ^ 8 + b2 % 256 * 2 ^ 16 + b3 % 256 * 2 ^ 24

/-- The function `SoftThread::fetch` (src/soft.rs:80-89): builds the byte array
`[program[pc+3], program[pc+2], program[pc+1], program[pc]]` and converts
it with `u32::from_le_bytes`. -/
def fetch (s : SoftThread) : Nat :=
  u32FromLeBytes (s.program.getD (s.pc + 3) 0) (s.program.getD (s.pc + 2) 0)
    (s.program.getD (s.pc + 1) 0) (s.program.getD s.pc 0)

/-- The instruction variants (src/instructions.rs) needed by the claims;
register fields are the `usize` values of the `Register` enum. -/
inductive Instruction where
  | Lui (rd : Nat) (imm : Int)
  | Addi (rd rs1 : Nat) (imm : Int)
  | Lb (rd rs1 : Nat) (imm : Int)
  | Lh (rd rs1 : Nat) (imm : Int)
  | Lw (rd rs1 : Nat) (imm : Int)
  | Ld (rd rs1 : Nat) (imm : Int)
  | Lbu (rd rs1 : Nat) (imm : Int)
  | Lhu (rd rs1 : Nat) (imm : Int)
  | Lwu (rd rs1 : Nat) (imm : Int)
  | Sb (rs1 rs2 : Nat) (imm : Int)
  | Sh (rs1 rs2 : Nat) (imm : Int)
  | Sw (rs1 rs2 : Nat) (imm : Int)
  | Sd (rs1 rs2 : Nat) (imm : Int)
  | Csrrc (c rd rs1 : Nat)
  | LrW (rd rs1 : Nat)
  | ScW (rd rs1 rs2 : Nat)
  | AmominW (rd rs1 rs2 : Nat)
  | AmomaxW (rd rs1 rs2 : Nat)
  | AmomaxD (rd rs1 rs2 : Nat)
  | AmomaxuD (rd rs1 rs2 : Nat)
  deriving DecidableEq, Repr

/-- Result of one `execute` call: `todo` marks the `todo!()` panics of the
source; `ok` carries the updated state. -/
inductive StepResult where
  | todo
  | ok (s : SoftThread)

/-- Effective address `self.registers[rs1].wrapping_add((imm as i64) as u64)`. -/
def effAddr (s : SoftThread) (rs1 : Nat) (imm : Int) : Nat :=
  (s.registers rs1 + toU64 imm) % WORD

/-- Modelled from the spec: `zero_extend` comes from the repository's
register module, which is not under src/; per §4.2 the old CSR value is
read into rd zero-extended to 64 bits, which on a 64-bit value is the
identity. -/
def zeroExtend (v : Nat) (_bits : Nat) : Nat := v

/-- The dispatcher `SoftThread::execute` (src/soft.rs:91-1467), arm by arm for the
instruction variants above.  `todo!()` branches give `StepResult.todo`;
ignored `bus.write` results keep the old bus when the write faults. -/
def execute (s : SoftThread) : Instruction → StepResult
  | .Lui rd imm =>
      .ok (advance { s with registers := regSet s.registers rd (toU64 imm) })
  | .Addi rd rs1 imm =>
      let immU := toU64 imm
      let regs' :=
        if s.registers rs1 + immU < WORD then
          regSet s.registers rd (s.registers rs1 + immU)
        else s.registers
      .ok (advance { s with registers := regs' })
  | .Lb rd rs1 imm =>
      match s.bus.read (effAddr s rs1 imm) 8 with
      | some v => .ok (advance { s with registers := regSet s.registers rd v })
      | none => .ok (advance s)
  | .Lh rd rs1 imm =>
      match s.bus.read (effAddr s rs1 imm) 16 with
      | some v => .ok (advance { s with registers := regSet s.registers rd v })
      | none => .ok (advance s)
  | .Lw rd rs1 imm =>
      match s.bus.read (effAddr s rs1 imm) 32 with
      | some v => .ok (advance { s with registers := regSet s.registers rd (sext32 v) })
      | none => .ok (advance s)
  | .Ld rd rs1 imm =>
      match s.bus.read (effAddr s rs1 imm) 64 with
      | some v => .ok (advance { s with registers := regSet s.registers rd v })
      | none => .ok (advance s)
  | .Lbu rd rs1 imm =>
      match s.bus.read (effAddr s rs1 imm) 8 with
      | some v => .ok (advance { s with registers := regSet s.registers rd v })
      | none => .ok (advance s)
  | .Lhu rd rs1 imm =>
      match s.bus.read (effAddr s rs1 imm) 16 with
      | some v => .ok (advance { s with registers := regSet s.registers rd v })
      | none => .ok (advance s)
  | .Lwu rd rs1 imm =>
      match s.bus.read (effAddr s rs1 imm) 32 with
      | some v => .ok (advance { s with registers := regSet s.registers rd v })
      | none => .ok (advance s)
  | .Sb rs1 rs2 imm =>
      let bus' := (s.bus.write (effAddr s rs1 imm) (s.registers rs2) 8).getD s.bus
      .ok (advance { s with bus := bus' })
  | .Sh rs1 rs2 imm =>
      let bus' := (s.bus.write (effAddr s rs1 imm) (s.registers rs2) 16).getD s.bus
      .ok (advance { s with bus := bus' })
  | .Sw rs1 rs2 imm =>
      let bus' := (s.bus.write (effAddr s rs1 imm) (s.registers rs2) 32).getD s.bus
      .ok (advance { s with bus := bus' })
  | .Sd rs1 rs2 imm =>
      let bus' := (s.bus.write (effAddr s rs1 imm) (s.registers rs2) 64).getD s.bus
      .ok (advance { s with bus := bus' })
  | .Csrrc c rd rs1 =>
      if rs1 ≠ 0 then
        let csrVal := zeroExtend (s.csr c) 32
        .ok (advance { s with
          registers := regSet s.registers rd csrVal,
          csr := fun j => if j = c then s.csr c &&& s.registers rs1 else s.csr j })
      else .ok (advance s)
  | .LrW rd rs1 =>
      let addr := s.registers rs1
      if addr % 4 ≠ 0 then .todo
      else
        match s.bus.read addr 32 with
        | some v =>
            .ok (advance { s with
              registers := regSet s.registers rd (sext32 v),
              res := s.res ++ [s.registers rs1] })
        | none => .ok (advance s)
  | .ScW rd rs1 rs2 =>
      let addr := s.registers rs1
      if addr % 4 ≠ 0 then .todo
      else
        if s.res.contains addr then
          let res' := s.res.filter (fun x => x ≠ addr)
          let word := s.registers rs2
          let bus' := (s.bus.write addr word 32).getD s.bus
          .ok (advance { s with
            res := res', bus := bus', registers := regSet s.registers rd 0 })
        else
          .ok (advance { s with
            res := s.res.filter (fun x => x ≠ addr),
            registers := regSet s.registers rd 1 })
  | .AmominW rd rs1 rs2 =>
      let addr := s.registers rs1
      if addr % 4 ≠ 0 then .todo
      else
        match s.bus.read addr 32 with
        | some temp =>
            let temp := sext32 temp
            let val := s.registers rs2
            let r := min temp val
            let bus' := (s.bus.write addr r 32).getD s.bus
            .ok (advance { s with bus := bus', registers := regSet s.registers rd temp })
        | none => .ok (advance s)
  | .AmomaxW rd rs1 rs2 =>
      let addr := s.registers rs1
      if addr % 4 ≠ 0 then .todo
      else
        match s.bus.read addr 32 with
        | some temp =>
            let temp := sext32 temp
            let val := s.registers rs2
            let r := max temp val
            let bus' := (s.bus.write addr r 32).getD s.bus
            .ok (advance { s with bus := bus', registers := regSet s.registers rd temp })
        | none => .ok (advance s)
  | .AmomaxD rd rs1 rs2 =>
      let addr := s.registers rs1
      if addr % 4 ≠ 0 then .todo
      else
        match s.bus.read addr 64 with
        | some temp =>
            let val := s.registers rs2
            let fin := max temp val
            let bus' := (s.bus.write addr fin 64).getD s.bus
            .ok (advance { s with bus := bus', registers := regSet s.registers rd temp })
        | none => .ok (advance s)
  | .AmomaxuD rd rs1 rs2 =>
      let addr := s.registers rs1
      if addr % 4 ≠ 0 then .todo
      else
        match s.bus.read addr 64 with
        | some temp =>
            let val := s.registers rs2
            let fin := max temp val
            let bus' := (s.bus.write addr fin 64).getD s.bus
            .ok (advance { s with bus := bus', registers := regSet s.registers rd temp })
        | none => .ok (advance s)

/-- The loader `SoftThread::load_program` (src/soft.rs:1469-1477): returns the
`Result` together with the (possibly updated) state. -/
def load_program (s : SoftThread) (code : List Nat) : Except Exc Unit × SoftThread :=
  if code.length > 4096 then (Except.error Exc.StackSizeExceeded, s)
  else (Except.ok (), { s with program := code })

/-- Projections on `StepResult` for stating concrete evaluations. -/
def StepResult.isOk : StepResult → Bool
  | .todo => false
  | .ok _ => true

def StepResult.reg : StepResult → Nat → Nat
  | .todo, _ => 0
  | .ok s, i => s.registers i

def StepResult.pcv : StepResult → Nat
  | .todo => 0
  | .ok s => s.pc

def StepResult.csrv : StepResult → Nat → Nat
  | .todo, _ => 0
  | .ok s, i => s.csr i

def StepResult.memByte : StepResult → Nat → Nat
  | .todo, _ => 0
  | .ok s, a => s.bus.mem a

def StepResult.resSet : StepResult → List Nat
  | .todo => []
  | .ok s => s.res

/-- Writes of `writeLE` only touch addresses at or above `addr`. -/
theorem writeLE_preserves_below :
    ∀ (n : Nat) (m : Nat → Nat) (addr v b : Nat),
      b < addr → writeLE m addr v n b = m b := by
  intro n
  induction n with
  | zero => intro m addr v b hb; rfl
  | succ k ih =>
      intro m addr v b hb
      simp only [writeLE]
      rw [ih _ _ _ _ (by omega), if_neg (by omega)]

/-- Reading back `n` bytes just written little-endian recovers the value
modulo `2 ^ (8 * n)`. -/
theorem readLE_writeLE :
    ∀ (n : Nat) (m : Nat → Nat) (addr v : Nat),
      readLE (writeLE m addr v n) addr n = v % 2 ^ (8 * n) := by
  intro n
  induction n with
  | zero => intro m addr v; simp [readLE, writeLE, Nat.mod_one]
  | succ k ih =>
      intro m addr v
      simp only [writeLE, readLE]
      rw [writeLE_preserves_below k _ _ _ addr (by omega), if_pos rfl, ih,
        show 8 * (k + 1) = 8 + 8 * k by ring, pow_add, Nat.mod_mul]
      norm_num

/-- A freshly zeroed HART state used as the base of the concrete scenarios. -/
def s0 : SoftThread :=
  { registers := fun _ => 0, pc := 0, program := [], csr := fun _ => 0,
    bus := { mem := fun _ => 0, size := 0 }, res := [] }

/-- State for the zero-register scenario: X[1] = 5, everything else zero. -/
def s1 : SoftThread := { s0 with registers := fun i => if i = 1 then 5 else 0 }

/-- C1: the claim says X[0] stays 0 across every step even when rd = x0.
The code writes the destination register unconditionally and never restores
X[0]: from a state with X[0] = 0 on entry, `ADDI x0, x1, 0` (X[1] = 5)
leaves X[0] = 5 on exit, and `LUI x0, 7` leaves X[0] = 7. -/
theorem c1_x0_written_by_step :
    s1.registers 0 = 0 ∧
    (execute s1 (.Addi 0 1 0)).isOk = true ∧
    (execute s1 (.Addi 0 1 0)).reg 0 = 5 ∧
    (execute s1 (.Lui 0 7)).reg 0 = 7 := by decide

/-- Program image holding the little-endian encoding 0x00500093 of
`ADDI x1, x0, 5` at address 0. -/
def s2 : SoftThread := { s0 with program := [0x93, 0x00, 0x50, 0x00] }

/-- C2 counterexample: with the little-endian bytes of `ADDI x1, x0, 5`
(0x00500093) in the program image at PC = 0, `fetch` returns 0x93005000:
the byte at PC (0x93) lands in the most significant position, not the
least significant one claimed. -/
theorem c2_fetch_counterexample :
    fetch s2 = 0x93005000 ∧
    s2.program.getD 0 0 = 0x93 ∧
    fetch s2 % 2 ^ 8 ≠ s2.program.getD 0 0 := by decide

/-- C2 amended: for every PC with PC+3 inside the program image (of byte
values), the fetched word is formed big-endian from program[PC..PC+4]:
program[PC+3] is the least significant byte and program[PC] the most
significant byte of the returned 32-bit word. -/
theorem c2_fetch_big_endian (s : SoftThread) (h3 : s.pc + 3 < s.program.length)
    (hb : ∀ b ∈ s.program, b < 256) :
    fetch s % 2 ^ 8 = s.program.getD (s.pc + 3) 0 ∧
    fetch s / 2 ^ 8 % 2 ^ 8 = s.program.getD (s.pc + 2) 0 ∧
    fetch s / 2 ^ 16 % 2 ^ 8 = s.program.getD (s.pc + 1) 0 ∧
    fetch s / 2 ^ 24 % 2 ^ 8 = s.program.getD s.pc 0 := by
  have hby : ∀ k, k < s.program.length → s.program.getD k 0 < 256 := by
    intro k hk
    rw [List.getD_eq_getElem s.program 0 hk]
    exact hb _ (List.getElem_mem hk)
  have e3 := hby (s.pc + 3) h3
  have e2 := hby (s.pc + 2) (by omega)
  have e1 := hby (s.pc + 1) (by omega)
  have e0 := hby s.pc (by omega)
  simp only [fetch, u32FromLeBytes]
  set a := s.program.getD (s.pc + 3) 0 with ha
  set b := s.program.getD (s.pc + 2) 0 with hbb
  set c := s.program.getD (s.pc + 1) 0 with hc
  set d := s.program.getD s.pc 0 with hd
  norm_num
  omega

/-- C2 amended, applied at the concrete `ADDI x1, x0, 5` image: witness for
`c2_fetch_big_endian`. -/
theorem c2_fetch_big_endian_witness :
    fetch s2 % 2 ^ 8 = s2.program.getD (s2.pc + 3) 0 ∧
    fetch s2 / 2 ^ 8 % 2 ^ 8 = s2.program.getD (s2.pc + 2) 0 ∧
    fetch s2 / 2 ^ 16 % 2 ^ 8 = s2.program.getD (s2.pc + 1) 0 ∧
    fetch s2 / 2 ^ 24 % 2 ^ 8 = s2.program.getD s2.pc 0 :=
  c2_fetch_big_endian s2 (by decide) (by decide)

/-- State with an outstanding reservation at address 8, X[1] = 8 (the store
address) and X[2] = 77 (the value to store); 16 bytes of memory. -/
def s4 : SoftThread :=
  { s0 with
    registers := (fun i => if i = 1 then 8 else if i = 2 then 77 else 0),
    bus := { mem := fun _ => 0, size := 16 },
    res := [8] }

/-- C4: the claim says a successful plain store removes overlapping
reservations.  From a state with a reservation at 8, `SW x2, 0(x1)` and
`SD x2, 0(x1)` (X[1] = 8) store successfully (byte 8 becomes 77) yet the
reservation set still contains 8 at the end of the step. -/
theorem c4_store_keeps_reservation :
    (execute s4 (.Sw 1 2 0)).isOk = true ∧
    (execute s4 (.Sw 1 2 0)).memByte 8 = 77 ∧
    (execute s4 (.Sw 1 2 0)).resSet = [8] ∧
    (execute s4 (.Sd 1 2 0)).memByte 8 = 77 ∧
    (execute s4 (.Sd 1 2 0)).resSet = [8] := by decide

/-- State with X[1] = 4 (an address that is 0 mod 4 but 4 mod 8) and
X[2] = 255; 16 bytes of zeroed memory. -/
def s5 : SoftThread :=
  { s0 with
    registers := (fun i => if i = 1 then 4 else if i = 2 then 255 else 0),
    bus := { mem := fun _ => 0, size := 16 } }

/-- C5: the claim says AMOMAX.D / AMOMAXU.D reject any address that is not
0 mod 8 and perform no memory access.  At effective address 4 (4 mod 8)
both instructions complete the step and write memory: byte 4 becomes 255. -/
theorem c5_amomaxd_accepts_misaligned :
    s5.registers 1 % 8 = 4 ∧
    (execute s5 (.AmomaxD 3 1 2)).isOk = true ∧
    (execute s5 (.AmomaxD 3 1 2)).memByte 4 = 255 ∧
    (execute s5 (.AmomaxuD 3 1 2)).isOk = true ∧
    (execute s5 (.AmomaxuD 3 1 2)).memByte 4 = 255 := by decide

/-- State whose memory word at address 0 is 0xFFFFFFFF (-1 as a signed
word) and X[2] = 1. -/
def s6 : SoftThread :=
  { s0 with
    registers := (fun i => if i = 2 then 1 else 0),
    bus := { mem := fun _ => 255, size := 8 } }

/-- C6: the claim says AMOMIN.W / AMOMAX.W compare as signed values, so
with memory word -1 and X[rs2] = 1, AMOMIN.W stores -1 and AMOMAX.W
stores 1.  The code compares the sign-extended values as unsigned 64-bit
numbers: AMOMIN.W stores 1 (bytes 1,0,0,0) and AMOMAX.W stores 0xFFFFFFFF
(byte 255); rd still receives the sign-extended old word. -/
theorem c6_amominw_compares_unsigned :
    (execute s6 (.AmominW 3 1 2)).memByte 0 = 1 ∧
    (execute s6 (.AmominW 3 1 2)).memByte 1 = 0 ∧
    (execute s6 (.AmominW 3 1 2)).memByte 2 = 0 ∧
    (execute s6 (.AmominW 3 1 2)).memByte 3 = 0 ∧
    (execute s6 (.AmominW 3 1 2)).reg 3 = 2 ^ 64 - 1 ∧
    (execute s6 (.AmomaxW 3 1 2)).memByte 0 = 255 := by decide

/-- State with CSR[5] = 3 and X[1] = 1. -/
def s7 : SoftThread :=
  { s0 with
    registers := (fun i => if i = 1 then 1 else 0),
    csr := fun i => if i = 5 then 3 else 0 }

/-- C7: the claim says CSRRC writes CSR & ~X[rs1].  With CSR[5] = 3 and
X[1] = 1 the claim demands the new CSR value 3 & ~1 = 2; the code computes
CSR & X[rs1] and writes 3 & 1 = 1.  The old value 3 does reach rd. -/
theorem c7_csrrc_writes_and_not_andnot :
    (execute s7 (.Csrrc 5 2 1)).isOk = true ∧
    (execute s7 (.Csrrc 5 2 1)).csrv 5 = 1 ∧
    (execute s7 (.Csrrc 5 2 1)).reg 2 = 3 := by decide

/-- State with X[1] = 2^64 - 1 and a stale value 42 in X[2]. -/
def s8 : SoftThread :=
  { s0 with registers :=
      fun i => if i = 1 then 2 ^ 64 - 1 else if i = 2 then 42 else 0 }

/-- C8: the claim says ADDI always writes (X[rs1] + imm) mod 2^64 to rd.
With X[1] = 2^64 - 1 and imm = 1 the claim demands X[2] = 0; the code uses
`checked_add` and skips the write on overflow, so X[2] keeps its prior
value 42 while PC still advances. -/
theorem c8_addi_overflow_skips_write :
    (execute s8 (.Addi 2 1 1)).isOk = true ∧
    (execute s8 (.Addi 2 1 1)).reg 2 = 42 ∧
    (execute s8 (.Addi 2 1 1)).pcv = 4 := by decide

/-- C9 counterexample: loading a 4097-byte vector fails, but with the
`StackSizeExceeded` error, not the `ProgramTooLarge` error the claim
names. -/
theorem c9_load_program_counterexample :
    (load_program s0 (List.replicate 4097 0)).1 = Except.error Exc.StackSizeExceeded ∧
    (load_program s0 (List.replicate 4097 0)).1 ≠ Except.error Exc.ProgramTooLarge := by
  constructor
  · simp only [load_program, List.length_replicate]
    norm_num
  · simp only [load_program, List.length_replicate]
    norm_num
    decide

/-- C9 amended: for every byte vector whose length exceeds 4096,
`load_program` fails with the `StackSizeExceeded` error and leaves the
program image unchanged; for every vector of length at most 4096 it
succeeds and copies the bytes into the program image. -/
theorem c9_load_program_behaviour (s : SoftThread) (code : List Nat) :
    (load_program s code).2.program = (if code.length ≤ 4096 then code else s.program) ∧
    (load_program s code).1 =
      (if code.length ≤ 4096 then Except.ok () else Except.error Exc.StackSizeExceeded) := by
  rcases le_or_lt code.length 4096 with h | h
  · simp [load_program, h, Nat.not_lt.mpr h]
  · simp [load_program, h, Nat.not_le.mpr h]

/-- C3: for every HART state and aligned in-range address a = X[rs1],
SC.W writes the low 32 bits of X[rs2] to memory at a and sets rd = 0 when
a is in the reservation set, and sets rd = 1 leaving memory unchanged
otherwise; in both cases the resulting reservation set contains no entry
equal to a. -/
theorem c3_scw_semantics (s : SoftThread) (rd rs1 rs2 : Nat)
    (ha : s.registers rs1 % 4 = 0) (hin : s.registers rs1 + 4 ≤ s.bus.size) :
    ∃ t, execute s (.ScW rd rs1 rs2) = .ok t ∧
      s.registers rs1 ∉ t.res ∧
      (if s.res.contains (s.registers rs1) then
        t.registers rd = 0 ∧
        t.bus.read (s.registers rs1) 32 = some (s.registers rs2 % 2 ^ 32)
      else
        t.registers rd = 1 ∧ t.bus = s.bus) := by
  simp only [execute]
  rw [if_neg (by omega)]
  by_cases hc : s.res.contains (s.registers rs1) = true
  · rw [if_pos hc]
    refine ⟨_, rfl, ?_, ?_⟩
    · simp [advance, List.mem_filter]
    · rw [if_pos hc]
      constructor
      · simp [advance, regSet]
      · show ((s.bus.write (s.registers rs1) (s.registers rs2) 32).getD s.bus).read
            (s.registers rs1) 32 = some (s.registers rs2 % 2 ^ 32)
        have hw : s.bus.write (s.registers rs1) (s.registers rs2) 32 =
            some { mem := writeLE s.bus.mem (s.registers rs1) (s.registers rs2) 4,
                   size := s.bus.size } := by
          unfold Dram.write
          rw [show (32 : Nat) / 8 = 4 by norm_num, if_pos (by omega)]
        rw [hw]
        simp only [Option.getD_some, Dram.read]
        rw [show (32 : Nat) / 8 = 4 by norm_num, if_pos (by omega), readLE_writeLE]
  · rw [if_neg hc]
    refine ⟨_, rfl, ?_, ?_⟩
    · simp [advance, List.mem_filter]
    · rw [if_neg hc]
      exact ⟨by simp [advance, regSet], rfl⟩

/-- State with a valid reservation at the aligned, in-range address 8
(X[1] = 8), X[2] = 5 to be stored, and 16 bytes of memory. -/
def s3 : SoftThread :=
  { s0 with
    registers := (fun i => if i = 1 then 8 else if i = 2 then 5 else 0),
    bus := { mem := fun _ => 0, size := 16 },
    res := [8] }

/-- C3 applied at a concrete reserved address: witness for
`c3_scw_semantics`. -/
theorem c3_scw_semantics_witness :
    ∃ t, execute s3 (.ScW 3 1 2) = .ok t ∧
      s3.registers 1 ∉ t.res ∧
      (if s3.res.contains (s3.registers 1) then
        t.registers 3 = 0 ∧
        t.bus.read (s3.registers 1) 32 = some (s3.registers 2 % 2 ^ 32)
      else
        t.registers 3 = 1 ∧ t.bus = s3.bus) :=
  c3_scw_semantics s3 3 1 2 (by decide) (by decide)

/-- C10: for every load instruction (LB, LH, LW, LD, LBU, LHU, LWU) whose
effective address lies outside the bus range, the step returns normally
(no exception), leaves every register — in particular rd — unchanged, and
still advances PC by 4. -/
theorem c10_failed_load_is_silent (s : SoftThread) (rd rs1 : Nat) (imm : Int)
    (i : Instruction)
    (hi : i = .Lb rd rs1 imm ∨ i = .Lh rd rs1 imm ∨ i = .Lw rd rs1 imm ∨
          i = .Ld rd rs1 imm ∨ i = .Lbu rd rs1 imm ∨ i = .Lhu rd rs1 imm ∨
          i = .Lwu rd rs1 imm)
    (hout : s.bus.size ≤ effAddr s rs1 imm) :
    execute s i = .ok (advance s) := by
  have hnone : ∀ bits : Nat, 1 ≤ bits / 8 →
      s.bus.read (effAddr s rs1 imm) bits = none := by
    intro bits hb
    unfold Dram.read
    rw [if_neg (by omega)]
  rcases hi with h | h | h | h | h | h | h <;> subst h <;> simp only [execute] <;>
    rw [hnone _ (by norm_num)]

/-- State whose bus holds only 4 bytes while X[2] = 12, so every load at
the effective address 12 faults. -/
def s10 : SoftThread :=
  { s0 with
    registers := (fun i => if i = 2 then 12 else 0),
    bus := { mem := fun _ => 0, size := 4 } }

/-- C10 applied at a concrete out-of-range load: witness for
`c10_failed_load_is_silent`. -/
theorem c10_failed_load_is_silent_witness :
    execute s10 (.Lb 1 2 0) = .ok (advance s10) :=
  c10_failed_load_is_silent s10 1 2 0 (.Lb 1 2 0) (Or.inl rfl) (by decide)
